import Mathlib

/-!
Verification development for the CatalogScanner pipeline (`scanner.py`).

The program decodes a screen-recorded video, segments each grayscale
region-of-interest frame into catalog row images, OCRs the concatenated
rows, and reconciles the OCR output against a canonical item vocabulary
with an exact lookup plus a `difflib.get_close_matches` fuzzy fallback,
finally returning the matched names sorted.

Shallow embedding conventions:
* A grayscale image (`numpy.ndarray`, 2-D) is a `List (List Nat)` of
  pixel rows, intensities in 0..255.  A missing first pixel of a row
  (the source assumes a fixed-width non-empty ROI) is treated as
  background intensity 255.
* External collaborators (cv2 video decoding + ROI crop, pytesseract,
  the JSON vocabulary file) are parameters: a video is its list of
  decoded ROI frames, the OCR engine is a function from an image to the
  text it returns, and the vocabulary is a `Finset String`.
* Python `set` is `Finset String`.  Python `sorted` on strings is the
  unique enumeration of the set that is sorted by the code-point
  lexicographic order `≤` (the order of Python string comparison for
  the data involved); it is realised below by `py_sorted`, an insertion
  sort lifted to the multiset.
* Python `str.split('\n')`, `str.strip()` and `str.lower()` are
  realised by structural functions on the character list of a `String`
  (`py_split_nl`, `py_strip`, `py_lower`); `strip`'s whitespace class
  is modelled by `Char.isWhitespace` (space, tab, CR, LF).
* `difflib`'s similarity `ratio()` (`2*M/T`) is modelled over exact
  rationals `ℚ`.  For the string lengths the program meets (well below
  difflib's `autojunk` threshold of 200, and small enough that distinct
  rationals with these denominators are separated by far more than the
  double-precision rounding error) the float comparisons of the source
  agree with the exact rational comparisons, and `cutoff=0.8` is
  `(4 : ℚ)/5`.
-/

set_option maxRecDepth 100000

namespace CatalogScanner

/- Reducibility plumbing so that concrete instances of the development
evaluate inside `decide`: Batteries marks the `Rat` arithmetic
irreducible, and Mathlib's `String` order instances go through the
iterator-based `String.ltb`; we route the `Decidable` instances through
the structural list order instead.  None of this changes any
definition, only how terms are unfolded during elaboration. -/

unseal Rat.mul Rat.inv Rat.add Rat.sub

instance (priority := 2000) decLtViaList (s t : String) : Decidable (s < t) :=
  decidable_of_iff (s.toList < t.toList) String.lt_iff_toList_lt.symm

instance (priority := 2000) decLeViaList (s t : String) : Decidable (s ≤ t) :=
  decidable_of_iff (s.toList ≤ t.toList) String.le_iff_toList_le.symm

/-- A grayscale image: a list of pixel rows, intensities in 0..255. -/
abbrev Frame := List (List Nat)

/-! ## Python primitives used by the source -/

/-- `text.split('\n')` on the character list: maximal runs between
newline characters; a leading/trailing/repeated separator contributes an
empty piece, and `''.split('\n') == ['']`. -/
def py_split_nl_chars : List Char → List (List Char)
  | [] => [[]]
  | c :: cs =>
    if c = '\n' then [] :: py_split_nl_chars cs
    else
      match py_split_nl_chars cs with
      | [] => [[c]]
      | piece :: pieces => (c :: piece) :: pieces

/-- `text.split('\n')` on strings. -/
def py_split_nl (s : String) : List String :=
  (py_split_nl_chars s.data).map List.asString

/-- `t.strip()`: remove leading and trailing whitespace. -/
def py_strip (s : String) : String :=
  List.asString
    (((s.data.dropWhile Char.isWhitespace).reverse.dropWhile
      Char.isWhitespace).reverse)

/-- `t.lower()`: lowercase each character. -/
def py_lower (s : String) : String :=
  List.asString (s.data.map Char.toLower)

/-- `sorted` of a multiset of strings: insertion sort of any enumeration
(well defined because sorted enumerations of permuted lists agree). -/
def py_sorted_multiset (m : Multiset String) : List String :=
  Quotient.lift (List.insertionSort (· ≤ ·))
    (fun a b hab =>
      List.eq_of_perm_of_sorted
        (((List.perm_insertionSort _ a).trans hab).trans
          (List.perm_insertionSort _ b).symm)
        (List.sorted_insertionSort _ a) (List.sorted_insertionSort _ b))
    m

/-- Python `sorted` applied to a `set` of strings: the unique
`≤`-sorted, duplicate-free enumeration of the set. -/
def py_sorted (s : Finset String) : List String :=
  py_sorted_multiset s.val

/-! ## Row Segmenter (`parse_frame`, scanner.py lines 26-36) -/

/-- The row indices of line pixels in column 0 of the frame:
`(frame[:, 0] < 200).nonzero()[0]` — ascending indices `i` with
`frame[i][0] < 200`.  A row with no column 0 defaults to background. -/
def linePixels (frame : Frame) : List Nat :=
  (List.range frame.length).filter (fun i => (frame.getD i []).headD 255 < 200)

/-- `lines = [0] + list((frame[:, 0] < 200).nonzero()[0])` — the detected
boundary indices with 0 prepended for the top edge. -/
def lineIndices (frame : Frame) : List Nat :=
  0 :: linePixels frame

/-- `parse_frame`: iterate over consecutive pairs of boundary indices
(`zip(lines, lines[1:])`); skip pairs whose gap is not strictly between
40 and 60; otherwise yield the crop `frame[y1 + 5 : y2 - 5, :]`
(full column width). -/
def parse_frame (frame : Frame) : List Frame :=
  ((lineIndices frame).zip (lineIndices frame).tail).foldr
    (fun p rows =>
      if ¬ (40 < p.2 - p.1 ∧ p.2 - p.1 < 60) then
        rows  -- skip lines that are too close or far
      else
        ((frame.drop (p.1 + 5)).take (p.2 - 5 - (p.1 + 5))) :: rows)
    []

/-! ## Frame Sampler (`parse_video`, scanner.py lines 39-46)

The video file is represented by the list of ROI frames its decode loop
produces (`read_frames` yields `gray[150:630, 635:1050]` per decoded
frame; decoding and cropping are external cv2 calls). -/

/-- `parse_video`: accumulate `parse_frame` outputs over the enumerated
frames, skipping every frame whose 0-based index is not a multiple
of 3 (`if i % 3 != 0: continue`). -/
def parse_video (frames : List Frame) : List Frame :=
  frames.enum.foldl
    (fun all_rows p =>
      if p.1 % 3 ≠ 0 then all_rows  -- Only parse every third frame
      else all_rows ++ parse_frame p.2)
    []

/-! ## Text Extractor (`run_tesseract`, scanner.py lines 49-56)

`cv2.vconcat` stacks the row images vertically, i.e. concatenates their
pixel-row lists; `pytesseract.image_to_string` is the external OCR
oracle, passed in as a function. -/

/-- `run_tesseract`: OCR the vertical concatenation of the row images,
then `{t.strip().lower() for t in parsed_text.split('\n') if t}` —
note the source filters out lines that are empty BEFORE stripping. -/
def run_tesseract (image_to_string : Frame → String) (item_rows : List Frame) :
    Finset String :=
  let concat_rows : Frame := item_rows.flatten
  let parsed_text := image_to_string concat_rows
  (((py_split_nl parsed_text).filter (fun t => t ≠ "")).map
    (fun t => py_lower (py_strip t))).toFinset

/-! ## difflib model (`SequenceMatcher.ratio` and `get_close_matches`)

`get_close_matches(word, possibilities, n=1, cutoff=0.8)` keeps the
possibilities `x` whose `SequenceMatcher(None, x, word).ratio()` is at
least the cutoff (the `real_quick_ratio`/`quick_ratio` pre-checks are
documented upper bounds of `ratio` and so never change the outcome) and
returns the top-1 by `heapq.nlargest` over `(score, x)` pairs, i.e. the
maximum under the lexicographic order on (score, string) — a result
independent of the `set` iteration order, which is why iterating the
canonically sorted vocabulary below is faithful.

`ratio()` is `2*M/T` where `T` is the total length and `M` the total
size of the matching blocks found by recursive longest-match
decomposition (Ratcliff/Obershelp).  With the default junk heuristic and
`len(b) < 200`, `find_longest_match` is exactly: the longest common
contiguous block, ties broken by smallest start in `a`, then in `b`. -/

/-- Length of the longest common suffix of `a[alo..i]` and `b[blo..j]`
ending exactly at positions `i` and `j` (the `j2len` dynamic program of
`find_longest_match`). -/
def suffLen (a b : List Char) (alo blo : Nat) : Nat → Nat → Nat
  | 0, j => if a.getD 0 default = b.getD j default then 1 else 0
  | i + 1, j =>
    if a.getD (i + 1) default = b.getD j default then
      if alo < i + 1 ∧ blo < j then suffLen a b alo blo i (j - 1) + 1 else 1
    else 0

/-- `find_longest_match(alo, ahi, blo, bhi)`: scan all positions in
lexicographic order, tracking the best `(besti, bestj, bestsize)` and
replacing it only on a strictly larger match size — the first maximal
block wins, as in difflib. -/
def findLongestMatch (a b : List Char) (alo ahi blo bhi : Nat) :
    Nat × Nat × Nat :=
  ((List.range' alo (ahi - alo)).flatMap
      (fun i => (List.range' blo (bhi - blo)).map (fun j => (i, j)))).foldl
    (fun best p =>
      let k := suffLen a b alo blo p.1 p.2
      if best.2.2 < k then (p.1 + 1 - k, p.2 + 1 - k, k) else best)
    (alo, blo, 0)

/-- Total matched size `M` of `get_matching_blocks`: recursively take the
longest match and recurse on both sides.  The fuel argument bounds the
recursion depth; every level splits the ranges around a non-empty block,
so a fuel of `len a + len b + 1` is never exhausted. -/
def matchedTotal (a b : List Char) : Nat → Nat → Nat → Nat → Nat → Nat
  | 0, _, _, _, _ => 0
  | fuel + 1, alo, ahi, blo, bhi =>
    let r := findLongestMatch a b alo ahi blo bhi
    if r.2.2 = 0 then 0
    else
      matchedTotal a b fuel alo r.1 blo r.2.1 + r.2.2 +
        matchedTotal a b fuel (r.1 + r.2.2) ahi (r.2.1 + r.2.2) bhi

/-- `SequenceMatcher(None, a, b).ratio() = 2*M/T`, and 1 when both
sequences are empty (`_calculate_ratio`). -/
def similarity (a b : List Char) : ℚ :=
  let t := a.length + b.length
  if t = 0 then 1
  else 2 * (matchedTotal a b (t + 1) 0 a.length 0 b.length : ℚ) / t

/-- `ratio` on strings; in `get_close_matches` the first sequence is the
vocabulary entry and the second the OCR candidate word. -/
def similarityStr (a b : String) : ℚ :=
  similarity a.data b.data

/-- `difflib.get_close_matches(word, possibilities, n=1, cutoff)`:
filter the possibilities by `ratio ≥ cutoff`, then return the single
best, the maximum of the `(score, string)` pairs (see the module comment
on `heapq.nlargest`); empty list when nothing qualifies. -/
def get_close_matches1 (word : String) (possibilities : Finset String)
    (cutoff : ℚ) : List String :=
  match (py_sorted possibilities).filter
      (fun x => cutoff ≤ similarityStr x word) with
  | [] => []
  | x :: xs =>
    [xs.foldl
      (fun best y =>
        if similarityStr best word < similarityStr y word ∨
            (similarityStr best word = similarityStr y word ∧ best < y) then y
        else best)
      x]

/-! ## Matcher (`match_items`, scanner.py lines 59-75) -/

/-- The body of the `match_items` loop for one parsed name: an exact
vocabulary member is added as is (no fuzzy step); otherwise
`difflib.get_close_matches(item, item_db, n=1, cutoff=0.8)` is
consulted, a miss is dropped (with a warning) and a hit contributes the
canonical entry `matches[0]`. -/
def matchStep (item_db : Finset String) (matched_items : Finset String)
    (item : String) : Finset String :=
  if item ∈ item_db then
    -- If item name exists in the DB, add it as is
    insert item matched_items
  else
    match get_close_matches1 item item_db ((4 : ℚ)/5) with
    | [] => matched_items  -- No match found (logged warning)
    | best :: _ => insert best matched_items

/-- `match_items`: fold the loop body over the parsed names, starting
from the empty `matched_items` set. -/
def match_items (parsed_names : List String) (item_db : Finset String) :
    Finset String :=
  parsed_names.foldl (matchStep item_db) ∅

/-! ## Catalog Scanner (`scan_catalog`, scanner.py lines 78-85)

The vocabulary load (`json.load(open('items/items_en-US.json'))`) is an
external file read; its result is the `item_db` parameter.  The Python
`match_items(item_names, item_db)` call iterates the `item_names` set in
an arbitrary order; the model iterates it in sorted order (the matcher
is order-independent, which is proved below as claim C10). -/

/-- `scan_catalog`: segment the sampled frames, OCR the rows, match
against the vocabulary and return the result sorted. -/
def scan_catalog (image_to_string : Frame → String) (item_db : Finset String)
    (frames : List Frame) : List String :=
  let item_rows := parse_video frames
  let item_names := run_tesseract image_to_string item_rows
  let clean_names := match_items (py_sorted item_names) item_db
  py_sorted clean_names

/-! ## Helper lemmas about `py_sorted` -/

theorem py_sorted_multiset_coe (m : Multiset String) :
    (py_sorted_multiset m : Multiset String) = m :=
  Quotient.inductionOn m fun l => Quotient.sound (List.perm_insertionSort _ l)

theorem py_sorted_sorted_le (S : Finset String) :
    (py_sorted S).Sorted (· ≤ ·) := by
  show (py_sorted_multiset S.val).Sorted (· ≤ ·)
  exact Quotient.inductionOn S.val fun l => List.sorted_insertionSort _ l

theorem py_sorted_nodup (S : Finset String) : (py_sorted S).Nodup :=
  Multiset.coe_nodup.mp (by rw [py_sorted, py_sorted_multiset_coe]; exact S.nodup)

theorem mem_py_sorted (s : String) (S : Finset String) :
    s ∈ py_sorted S ↔ s ∈ S := by
  rw [← Multiset.mem_coe, py_sorted, py_sorted_multiset_coe]
  exact Iff.rfl

/-! ## Helper lemmas about the difflib model -/

/-- The `nlargest` fold body: keep the incumbent or take the challenger. -/
theorem pickBetter_choice (w : String) (a b : String) :
    (if similarityStr a w < similarityStr b w ∨
        (similarityStr a w = similarityStr b w ∧ a < b) then b else a) = a ∨
    (if similarityStr a w < similarityStr b w ∨
        (similarityStr a w = similarityStr b w ∧ a < b) then b else a) = b := by
  by_cases h : similarityStr a w < similarityStr b w ∨
      (similarityStr a w = similarityStr b w ∧ a < b)
  · rw [if_pos h]; exact Or.inr rfl
  · rw [if_neg h]; exact Or.inl rfl

/-- A fold whose body always returns one of its two arguments stays
within the initial value and the list. -/
theorem foldl_choice_mem {α : Type} (f : α → α → α)
    (hf : ∀ a b, f a b = a ∨ f a b = b) :
    ∀ (l : List α) (a : α), l.foldl f a ∈ a :: l := by
  intro l
  induction l with
  | nil => intro a; simp
  | cons b t ih =>
    intro a
    rw [List.foldl_cons]
    have h := ih (f a b)
    rcases List.mem_cons.mp h with h1 | h2
    · rw [h1]
      rcases hf a b with hab | hab <;> rw [hab]
      · exact List.mem_cons_self _ _
      · exact List.mem_cons_of_mem _ (List.mem_cons_self _ _)
    · exact List.mem_cons_of_mem _ (List.mem_cons_of_mem _ h2)

/-- If `m` is present and strictly beats every other element on
similarity, the `nlargest` fold returns `m`. -/
theorem foldl_pickBetter_eq (w m : String) :
    ∀ (l : List String) (a : String), m ∈ a :: l →
      (∀ y ∈ a :: l, y ≠ m → similarityStr y w < similarityStr m w) →
      l.foldl
        (fun best y =>
          if similarityStr best w < similarityStr y w ∨
              (similarityStr best w = similarityStr y w ∧ best < y) then y
          else best)
        a = m := by
  intro l
  induction l with
  | nil =>
    intro a hm _
    exact (List.mem_singleton.mp hm).symm
  | cons b t ih =>
    intro a hm hstrict
    rw [List.foldl_cons]
    have hchoice := pickBetter_choice w a b
    apply ih
    · -- membership of m in the new accumulator's cons-list
      rcases List.mem_cons.mp hm with hma | hm2
      · -- m = a: the incumbent is m and no challenger can displace it
        by_cases hbm : b = m
        · have hba : b = a := hbm.trans hma
          rw [hba]
          have hcond : ¬ (similarityStr a w < similarityStr a w ∨
              (similarityStr a w = similarityStr a w ∧ a < a)) := by
            rintro (hlt | ⟨_, hlt⟩) <;> exact lt_irrefl _ hlt
          rw [if_neg hcond]
          exact List.mem_cons.mpr (Or.inl hma)
        · have hb : similarityStr b w < similarityStr a w := by
            rw [← hma]
            exact hstrict b
              (List.mem_cons_of_mem _ (List.mem_cons_self _ _)) hbm
          have hcond : ¬ (similarityStr a w < similarityStr b w ∨
              (similarityStr a w = similarityStr b w ∧ a < b)) := by
            rintro (hlt | ⟨heq, _⟩)
            · exact absurd hlt (lt_asymm hb)
            · exact absurd heq (ne_of_gt hb)
          rw [if_neg hcond]
          exact List.mem_cons.mpr (Or.inl hma)
      · rcases List.mem_cons.mp hm2 with hmb | hmt
        · -- m = b: either a is already m, or the challenger m wins
          by_cases ham : a = m
          · have hba : b = a := hmb.symm.trans ham.symm
            rw [hba]
            have hcond : ¬ (similarityStr a w < similarityStr a w ∨
                (similarityStr a w = similarityStr a w ∧ a < a)) := by
              rintro (hlt | ⟨_, hlt⟩) <;> exact lt_irrefl _ hlt
            rw [if_neg hcond]
            exact List.mem_cons.mpr (Or.inl ham.symm)
          · have ha : similarityStr a w < similarityStr b w := by
              rw [← hmb]
              exact hstrict a (List.mem_cons_self _ _) ham
            rw [if_pos (Or.inl ha)]
            exact List.mem_cons.mpr (Or.inl hmb)
        · exact List.mem_cons_of_mem _ hmt
    · -- strictness transfers to the new cons-list
      intro y hy hne
      rcases List.mem_cons.mp hy with h1 | h2
      · rcases hchoice with hc | hc <;> rw [hc] at h1 <;>
          rw [h1] at hne ⊢
        · exact hstrict a (List.mem_cons_self _ _) hne
        · exact hstrict b (List.mem_cons_of_mem _ (List.mem_cons_self _ _)) hne
      · exact hstrict y
          (List.mem_cons_of_mem _ (List.mem_cons_of_mem _ h2)) hne

/-- Every string returned by the fuzzy step is a member of the
possibilities set. -/
theorem get_close_matches1_mem {w x : String} {S : Finset String} {c : ℚ}
    (hx : x ∈ get_close_matches1 w S c) : x ∈ S := by
  unfold get_close_matches1 at hx
  cases hq : (py_sorted S).filter (fun y => decide (c ≤ similarityStr y w)) with
  | nil => rw [hq] at hx; cases hx
  | cons a l =>
    rw [hq] at hx
    have hx' : x = l.foldl
        (fun best y =>
          if similarityStr best w < similarityStr y w ∨
              (similarityStr best w = similarityStr y w ∧ best < y) then y
          else best) a := by
      simpa using hx
    have hmem := foldl_choice_mem _ (pickBetter_choice w) l a
    rw [← hx', ← hq] at hmem
    exact (mem_py_sorted x S).mp (List.mem_of_mem_filter hmem)

/-- If `m` qualifies (similarity at least the cutoff) and strictly beats
every other vocabulary entry, the fuzzy step returns exactly `[m]`. -/
theorem get_close_matches1_eq_best {w m : String} {S : Finset String} {c : ℚ}
    (hm : m ∈ S) (hcut : c ≤ similarityStr m w)
    (hbest : ∀ x ∈ S, x ≠ m → similarityStr x w < similarityStr m w) :
    get_close_matches1 w S c = [m] := by
  unfold get_close_matches1
  have hmf : m ∈ (py_sorted S).filter (fun y => decide (c ≤ similarityStr y w)) :=
    List.mem_filter.mpr ⟨(mem_py_sorted m S).mpr hm, decide_eq_true hcut⟩
  cases hq : (py_sorted S).filter (fun y => decide (c ≤ similarityStr y w)) with
  | nil => rw [hq] at hmf; cases hmf
  | cons a l =>
    rw [hq] at hmf
    have hsub : ∀ y ∈ a :: l, y ∈ S := by
      intro y hy
      rw [← hq] at hy
      exact (mem_py_sorted y S).mp (List.mem_of_mem_filter hy)
    have hfold := foldl_pickBetter_eq w m l a hmf
      (fun y hy hne => hbest y (hsub y hy) hne)
    exact congrArg (fun z => [z]) hfold

/-- If every vocabulary entry scores strictly below the cutoff, the
fuzzy step returns nothing. -/
theorem get_close_matches1_eq_nil {w : String} {S : Finset String} {c : ℚ}
    (h : ∀ x ∈ S, similarityStr x w < c) : get_close_matches1 w S c = [] := by
  unfold get_close_matches1
  have hnil : (py_sorted S).filter (fun y => decide (c ≤ similarityStr y w)) = [] := by
    apply List.filter_eq_nil_iff.mpr
    intro x hx
    simpa using not_le.mpr (h x ((mem_py_sorted x S).mp hx))
  rw [hnil]

/-! ## Helper lemmas about the matcher fold -/

/-- One loop step only ever adds to the accumulated set: it equals the
accumulator united with the step taken from the empty set. -/
theorem matchStep_eq_union (item_db s : Finset String) (i : String) :
    matchStep item_db s i = s ∪ matchStep item_db ∅ i := by
  unfold matchStep
  by_cases h : i ∈ item_db
  · rw [if_pos h, if_pos h]
    ext x
    simp [or_comm]
  · rw [if_neg h, if_neg h]
    cases hg : get_close_matches1 i item_db ((4 : ℚ)/5) with
    | nil => simp
    | cons b l =>
      ext x
      simp [or_comm]

/-- Folding the matcher loop from any accumulator is the accumulator
united with the fold from the empty set. -/
theorem foldl_matchStep_union (item_db : Finset String) :
    ∀ (l : List String) (s : Finset String),
      l.foldl (matchStep item_db) s =
        s ∪ l.foldl (matchStep item_db) ∅ := by
  intro l
  induction l with
  | nil => intro s; simp
  | cons a t ih =>
    intro s
    rw [List.foldl_cons, List.foldl_cons, ih (matchStep item_db s a),
      ih (matchStep item_db ∅ a), matchStep_eq_union item_db s a,
      Finset.union_assoc]

theorem match_items_cons (a : String) (l : List String)
    (item_db : Finset String) :
    match_items (a :: l) item_db =
      matchStep item_db ∅ a ∪ match_items l item_db := by
  unfold match_items
  rw [List.foldl_cons, foldl_matchStep_union item_db l (matchStep item_db ∅ a)]

/-- Everything a single loop step adds is a vocabulary member. -/
theorem mem_matchStep_empty {s i : String} {item_db : Finset String}
    (h : s ∈ matchStep item_db ∅ i) : s ∈ item_db := by
  unfold matchStep at h
  by_cases hi : i ∈ item_db
  · rw [if_pos hi] at h
    rcases Finset.mem_insert.mp h with h1 | h2
    · rw [h1]; exact hi
    · cases Finset.not_mem_empty s h2
  · rw [if_neg hi] at h
    cases hg : get_close_matches1 i item_db ((4 : ℚ)/5) with
    | nil => rw [hg] at h; cases Finset.not_mem_empty s h
    | cons b l =>
      rw [hg] at h
      rcases Finset.mem_insert.mp h with h1 | h2
      · rw [h1]
        exact get_close_matches1_mem (hg ▸ List.mem_cons_self b l)
      · cases Finset.not_mem_empty s h2

/-- Everything the matcher returns is a vocabulary member. -/
theorem mem_match_items {s : String} {l : List String}
    {item_db : Finset String} (h : s ∈ match_items l item_db) :
    s ∈ item_db := by
  induction l with
  | nil => cases Finset.not_mem_empty s h
  | cons a t ih =>
    rw [match_items_cons] at h
    rcases Finset.mem_union.mp h with h1 | h2
    · exact mem_matchStep_empty h1
    · exact ih h2

/-- The matcher is the union of its per-candidate results over the SET
of candidates. -/
theorem match_items_biUnion (l : List String) (item_db : Finset String) :
    match_items l item_db =
      l.toFinset.biUnion (fun c => match_items [c] item_db) := by
  induction l with
  | nil => simp [match_items]
  | cons a t ih =>
    rw [match_items_cons, List.toFinset_cons, Finset.biUnion_insert, ih]
    rfl

/-! ## Frame Source control flow (`read_frames`, scanner.py lines 13-23)


The generator's body is
```
cap = cv2.VideoCapture(filename)
while True:
    ret, frame = cap.read()
    if not ret: break
    gray = cv2.cvtColor(frame, cv2.COLOR_BGR2GRAY)
    yield gray[150:630, 635:1050]
cap.release()
```
with no `try/finally`.  Its control flow is embedded as a step function
over the decoded stream: `remaining` frames are left before end of
stream, `idx` is the index of the next frame.  `errorAt = some k` means
the processing of frame `k` raises (e.g. `cvtColor` fails); the
exception propagates out of the generator without running any further
statement.  `abandonAfter = some k` (with `k ≥ 1`) means the consumer
stops after receiving `k` frames; CPython then closes the generator,
raising `GeneratorExit` at the suspended `yield`, which likewise leaves
the body without running any further statement.  The returned `Bool` is
whether `cap.release()` was executed (the decode handle reports itself
closed); the `Nat` is the number of frames yielded. -/

/-- One decode loop of `read_frames`; see the section comment. -/
def read_frames_loop (errorAt abandonAfter : Option Nat) :
    Nat → Nat → Bool × Nat
  | 0, idx => (true, idx)  -- cap.read() fails: break, then cap.release()
  | remaining + 1, idx =>
    if errorAt = some idx then
      (false, idx)  -- exception mid-body: release is never reached
    else if abandonAfter = some (idx + 1) then
      (false, idx + 1)  -- GeneratorExit at this yield: release never reached
    else read_frames_loop errorAt abandonAfter remaining (idx + 1)

/-- Run the `read_frames` generator over a stream of `total` frames. -/
def read_frames_exec (total : Nat) (errorAt abandonAfter : Option Nat) :
    Bool × Nat :=
  read_frames_loop errorAt abandonAfter total 0

/-- A fully drained, error-free stream always ends with `cap.release()`
executed and all frames yielded. -/
theorem read_frames_loop_drain :
    ∀ r idx : Nat, read_frames_loop none none r idx = (true, idx + r) := by
  intro r
  induction r with
  | zero => intro idx; rfl
  | succ n ih =>
    intro idx
    simp only [read_frames_loop, ih]
    simp
    omega

/-! ## Claim theorems -/

/-- C5: for every frame and every consecutive pair `(y1, y2)` of
detected boundary indices (line-pixel rows with 0 prepended), the Row
Segmenter yields a row image exactly when the gap `y2 - y1` is strictly
between 40 and 60, and that row is the frame cropped to rows
`[y1+5, y2-5)` across the full column width; pairs outside the band
produce nothing. -/
theorem parse_frame_band_crop (frame : Frame) :
    parse_frame frame =
      (((lineIndices frame).zip (lineIndices frame).tail).filter
          (fun p => 40 < p.2 - p.1 ∧ p.2 - p.1 < 60)).map
        (fun p => (frame.drop (p.1 + 5)).take (p.2 - 5 - (p.1 + 5))) := by
  unfold parse_frame
  generalize (lineIndices frame).zip (lineIndices frame).tail = ps
  induction ps with
  | nil => rfl
  | cons p t ih =>
    by_cases hb : 40 < p.2 - p.1 ∧ p.2 - p.1 < 60
    · rw [List.foldr_cons, if_neg (not_not_intro hb), List.filter_cons,
        if_pos (decide_eq_true hb), List.map_cons, ih]
    · rw [List.foldr_cons, if_pos hb, List.filter_cons,
        if_neg (by simpa using hb), ih]

/-- Counterexample to C6: a frame with exactly one line-pixel, at row
index 50, yields a row (the prepended top boundary pairs with it and
the gap 50 lies in the accepted band). -/
def cexFrame : Frame :=
  (List.range 51).map (fun i => if i = 50 then [0] else [255])

/-- C6 (counterexample): the claim "a frame with zero or one line-pixel
yields no rows" fails on `cexFrame`, which has exactly one line-pixel
yet yields a row. -/
theorem single_line_pixel_cex :
    (linePixels cexFrame).length = 1 ∧ parse_frame cexFrame ≠ [] := by
  decide

/-- C6 (amended): a frame with zero line-pixels yields no rows; a frame
with exactly one line-pixel at row `k` yields no rows unless
`40 < k < 60`, in which case it yields the single row cropped to
`[5, k-5)`. -/
theorem single_line_pixel_amended (frame : Frame) :
    (linePixels frame = [] → parse_frame frame = []) ∧
    (∀ k, linePixels frame = [k] →
      parse_frame frame =
        if 40 < k ∧ k < 60 then [(frame.drop 5).take (k - 10)] else []) := by
  constructor
  · intro h
    unfold parse_frame lineIndices
    rw [h]
    rfl
  · intro k h
    unfold parse_frame lineIndices
    rw [h]
    by_cases hk : 40 < k ∧ k < 60 <;> simp [hk, Nat.sub_sub]

/-- Witness for the amended C6: a frame with no line pixels yields
nothing; `cexFrame` (single line-pixel at 50) yields one row. -/
theorem single_line_pixel_amended_witness :
    parse_frame [[255], [255]] = [] ∧
    parse_frame cexFrame = [(cexFrame.drop 5).take 40] := by
  constructor
  · exact (single_line_pixel_amended [[255], [255]]).1 (by decide)
  · have h := (single_line_pixel_amended cexFrame).2 50 (by decide)
    simpa using h

/-- C8: the Frame Sampler's accumulated row batch is the concatenation,
in frame decode order, of the Row Segmenter's outputs for exactly the
frames whose 0-based decode index is a multiple of 3. -/
theorem parse_video_every_third (frames : List Frame) :
    parse_video frames =
      ((frames.enum.filter (fun p => p.1 % 3 = 0)).map
        (fun p => parse_frame p.2)).flatten := by
  unfold parse_video
  suffices h : ∀ (ps : List (Nat × Frame)) (acc : List Frame),
      ps.foldl
        (fun all_rows p =>
          if p.1 % 3 ≠ 0 then all_rows else all_rows ++ parse_frame p.2)
        acc =
      acc ++ ((ps.filter (fun p => p.1 % 3 = 0)).map
        (fun p => parse_frame p.2)).flatten by
    simpa using h frames.enum []
  intro ps
  induction ps with
  | nil => intro acc; simp
  | cons p t ih =>
    intro acc
    by_cases hp : p.1 % 3 = 0
    · rw [List.foldl_cons, if_neg (not_not_intro hp), ih, List.filter_cons,
        if_pos (decide_eq_true hp), List.map_cons, List.flatten_cons,
        List.append_assoc]
    · rw [List.foldl_cons, if_pos hp, ih, List.filter_cons,
        if_neg (by simpa using hp)]

/-- C9 (code divergence): `cap.release()` runs only when the decode loop
ends by exhaustion.  A fully drained stream closes the handle, but an
error raised mid-stream, or abandonment by the consumer, leaves the
generator without reaching `release` — the handle stays open,
contradicting the claim that every exit path releases it. -/
theorem read_frames_release_divergence :
    (∀ total, read_frames_exec total none none = (true, total)) ∧
    read_frames_exec 2 (some 1) none = (false, 1) ∧
    read_frames_exec 2 none (some 1) = (false, 1) := by
  refine ⟨fun total => ?_, by decide, by decide⟩
  simpa using read_frames_loop_drain total 0

/-- C1: every string in the Matcher's result set — and hence in the
Catalog Scanner's final output — is a member of the vocabulary; no
other string ever appears. -/
theorem matcher_result_subset_vocab (names : List String)
    (item_db : Finset String) (image_to_string : Frame → String)
    (frames : List Frame) (s : String) :
    (s ∈ match_items names item_db → s ∈ item_db) ∧
    (s ∈ scan_catalog image_to_string item_db frames → s ∈ item_db) := by
  constructor
  · exact fun h => mem_match_items h
  · intro h
    unfold scan_catalog at h
    exact mem_match_items ((mem_py_sorted s _).mp h)

/-- Witness for C1 at concrete inputs: an exact hit through the matcher,
and an end-to-end scan, each landing inside the vocabulary. -/
theorem matcher_result_subset_vocab_witness :
    ("iron sword" ∈ ({"iron sword"} : Finset String)) ∧
    ("cracked shield" ∈ ({"cracked shield"} : Finset String)) :=
  ⟨(matcher_result_subset_vocab ["iron sword"] {"iron sword"}
      (fun _ => "") [] "iron sword").1 (by decide),
   (matcher_result_subset_vocab [] {"cracked shield"}
      (fun _ => "cracked shield") [] "cracked shield").2 (by decide)⟩

/-- C2: the Catalog Scanner's returned sequence is lexicographically
sorted with no duplicate entries, for every OCR oracle, vocabulary and
input video. -/
theorem scan_catalog_sorted_nodup (image_to_string : Frame → String)
    (item_db : Finset String) (frames : List Frame) :
    (scan_catalog image_to_string item_db frames).Sorted (· ≤ ·) ∧
    (scan_catalog image_to_string item_db frames).Nodup := by
  unfold scan_catalog
  exact ⟨py_sorted_sorted_le _, py_sorted_nodup _⟩

/-- C3: a candidate that is an exact vocabulary member maps, through the
matcher, to exactly itself (the exact-hit branch adds it as is and the
fuzzy step is never consulted). -/
theorem matcher_exact_member (c : String) (item_db : Finset String)
    (hc : c ∈ item_db) : match_items [c] item_db = {c} := by
  show matchStep item_db ∅ c = {c}
  unfold matchStep
  rw [if_pos hc]
  rfl

/-- Witness for C3: an exact member of a two-element vocabulary. -/
theorem matcher_exact_member_witness :
    match_items ["iron sword"] {"iron sword", "cracked shield"} =
      {"iron sword"} :=
  matcher_exact_member "iron sword" {"iron sword", "cracked shield"}
    (by decide)

/-- C4: for a candidate not in the vocabulary, if the best vocabulary
entry scores at least 0.8 (strictly above all others), it is accepted
into the result; if every entry scores strictly below 0.8, the
candidate is dropped (the result stays empty — a warning, not an
error). -/
theorem matcher_cutoff_boundary (c : String) (item_db : Finset String)
    (hc : c ∉ item_db) :
    (∀ m ∈ item_db, (4 : ℚ)/5 ≤ similarityStr m c →
      (∀ x ∈ item_db, x ≠ m → similarityStr x c < similarityStr m c) →
      match_items [c] item_db = {m}) ∧
    ((∀ x ∈ item_db, similarityStr x c < (4 : ℚ)/5) →
      match_items [c] item_db = ∅) := by
  constructor
  · intro m hm hcut hbest
    show matchStep item_db ∅ c = {m}
    unfold matchStep
    rw [if_neg hc, get_close_matches1_eq_best hm hcut hbest]
    rfl
  · intro hdrop
    show matchStep item_db ∅ c = ∅
    unfold matchStep
    rw [if_neg hc, get_close_matches1_eq_nil hdrop]

/-- Witness for C4 at the exact boundary: `similarity("abcdef","abcd")`
is `2*4/10 = 0.8`, accepted; `"xyzzy"` scores 0 against the same
vocabulary and is dropped. -/
theorem matcher_cutoff_boundary_witness :
    match_items ["abcd"] {"abcdef"} = {"abcdef"} ∧
    match_items ["xyzzy"] {"abcdef"} = ∅ :=
  ⟨(matcher_cutoff_boundary "abcd" {"abcdef"} (by decide)).1 "abcdef"
      (by decide) (by decide) (by decide),
   (matcher_cutoff_boundary "xyzzy" {"abcdef"} (by decide)).2 (by decide)⟩

/-- Counterexample to C7: the source filters `if t` (non-empty BEFORE
stripping), so an OCR line consisting of a single space survives the
filter and contributes the empty string to the candidate set. -/
theorem whitespace_line_cex :
    ("" : String) ∈ run_tesseract (fun _ => " ") [[[0]]] := by decide

/-- C7 (amended): the Text Extractor splits the OCR text on line breaks,
discards lines that are empty BEFORE trimming, trims and lowercases the
survivors, and returns them as a set (so duplicates collapse); in
particular a whitespace-only line contributes the empty string. -/
theorem run_tesseract_mem_amended (image_to_string : Frame → String)
    (item_rows : List Frame) (s : String) :
    s ∈ run_tesseract image_to_string item_rows ↔
      ∃ t ∈ py_split_nl (image_to_string item_rows.flatten),
        t ≠ "" ∧ py_lower (py_strip t) = s := by
  simp only [run_tesseract, List.mem_toFinset, List.mem_map,
    List.mem_filter, decide_eq_true_eq]
  constructor
  · rintro ⟨t, ⟨ht, hne⟩, hst⟩
    exact ⟨t, ht, hne, hst⟩
  · rintro ⟨t, ht, hne, hst⟩
    exact ⟨t, ⟨ht, hne⟩, hst⟩

/-- C10: the matcher's result depends only on the SET of candidate
names, not on their enumeration order, and equals the union over the
candidates of the per-singleton results. -/
theorem matcher_order_independent (item_db : Finset String)
    (l1 l2 : List String) (h : l1.toFinset = l2.toFinset) :
    match_items l1 item_db = match_items l2 item_db ∧
    match_items l1 item_db =
      l1.toFinset.biUnion (fun c => match_items [c] item_db) := by
  refine ⟨?_, match_items_biUnion l1 item_db⟩
  rw [match_items_biUnion l1, match_items_biUnion l2, h]

/-- Witness for C10: two enumerations of the same candidate set, one
with a duplicate, give the same result. -/
theorem matcher_order_independent_witness :
    match_items ["a", "b"] {"a"} = match_items ["b", "a", "a"] {"a"} ∧
    match_items ["a", "b"] {"a"} =
      (["a", "b"].toFinset).biUnion (fun c => match_items [c] {"a"}) :=
  matcher_order_independent {"a"} ["a", "b"] ["b", "a", "a"] (by decide)

/-! ## Concrete sanity checks: the end-to-end scenarios of the design

These evaluate the embedded pipeline on the scenarios the design
document lists as testable properties, pinning the model to observable
behaviour of the source. -/

/-- The OCR stub returns two item lines separated by a blank line; the
scan returns both vocabulary entries, sorted. -/
example :
    scan_catalog (fun _ => "Iron Sword\n\nCracked Shield\n")
      {"iron sword", "cracked shield", "steel shield"} [] =
      ["cracked shield", "iron sword"] := by decide

/-- A single-typo candidate fuzzy-matches to its canonical entry. -/
example :
    match_items ["crackd sheild"]
      {"iron sword", "cracked shield", "steel shield"} =
      {"cracked shield"} := by decide

end CatalogScanner
